import Mathlib

/-!
Verification development for the `flutter-version-checker` GitHub action
(`src/index.js`).  The version-reconciliation core of the action is embedded
shallowly:

* version strings are Lean `String`s, manipulated through their `List Char`
  data, mirroring the JavaScript `split` / `parseInt` semantics;
* `parseFlutterVersion`, `compareVersions`, `generateNextVersion` are direct
  translations of the functions of the same names;
* the git-facing loop of `findPreviousVersion` is embedded as a pure scan over
  the sequence of per-commit version observations (the "history provider" of
  the spec): `none` stands for a commit whose `pubspec.yaml` was missing,
  unreadable, or had no truthy `version` field;
* the decision part of `run()` (everything after the previous version has been
  obtained) is embedded as `run`, producing the action outputs; the
  `pubspec.yaml` write and the commit/push are external effects whose success
  is assumed by that model and studied separately in `commitAndPush`, which
  embeds the control flow of the function of that name over an environment
  recording which git subprocesses succeed.

Numbers: JavaScript numbers are IEEE doubles.  The embedding uses exact `Int`
arithmetic, which coincides with JavaScript on integers of magnitude at most
`Number.MAX_SAFE_INTEGER = 2^53 - 1`; universally quantified theorems restrict
version components to that range (`Version.Safe`), which the `semver` package
itself enforces for release components.  `parseInt` can produce `NaN` for the
build counter (`"1.0.0+abc"`), so build counters live in `JsNum`.
-/

/-- A character is a decimal digit (JavaScript `parseInt` radix 10 digits). -/
def isDigitChar (c : Char) : Bool := 48 ≤ c.toNat && c.toNat ≤ 57

/-- Numeric value of a digit character. -/
def digitVal (c : Char) : Nat := c.toNat - 48

/-- Value of a big-endian digit string, as accumulated left to right. -/
def charsVal (l : List Char) : Nat := l.foldl (fun acc c => 10 * acc + digitVal c) 0

/-- The decimal digit character for a value below ten. -/
def digitChar (d : Nat) : Char := Char.ofNat (48 + d)

/-- Little-endian decimal digits of `n`, with explicit structural fuel so that
the kernel can evaluate it (fuel `n` is always enough). -/
def natToRevDigits : Nat → Nat → List Char
  | 0, _ => []
  | _ + 1, 0 => []
  | f + 1, n + 1 => digitChar ((n + 1) % 10) :: natToRevDigits f ((n + 1) / 10)

/-- Decimal notation of a natural number, as JavaScript string interpolation
prints a non-negative integer. -/
def natToChars (n : Nat) : List Char := if n = 0 then ['0'] else (natToRevDigits n n).reverse

/-- Decimal notation of an integer (JavaScript string interpolation). -/
def intToChars (z : Int) : List Char :=
  if z < 0 then '-' :: natToChars z.natAbs else natToChars z.toNat

/-- A JavaScript number that is either an integer or `NaN` (the result of
`parseInt` on a non-numeric string). -/
inductive JsNum where
  | nan
  | val (z : Int)
deriving DecidableEq

/-- JavaScript `>` on numbers: any comparison with `NaN` is false. -/
def jsGtB : JsNum → JsNum → Bool
  | JsNum.val x, JsNum.val y => decide (y < x)
  | _, _ => false

/-- JavaScript `<` on numbers: any comparison with `NaN` is false. -/
def jsLtB : JsNum → JsNum → Bool
  | JsNum.val x, JsNum.val y => decide (x < y)
  | _, _ => false

/-- JavaScript `<=` on numbers (used only by the superseded revision of
`compareVersions`): any comparison with `NaN` is false. -/
def jsLeB : JsNum → JsNum → Bool
  | JsNum.val x, JsNum.val y => decide (x ≤ y)
  | _, _ => false

/-- JavaScript `n + 1` on a number: `NaN + 1 = NaN`. -/
def jsNumAdd1 : JsNum → JsNum
  | JsNum.nan => JsNum.nan
  | JsNum.val z => JsNum.val (z + 1)

/-- JavaScript string interpolation of a number (`NaN` prints as `"NaN"`). -/
def jsNumToChars : JsNum → List Char
  | JsNum.nan => ['N', 'a', 'N']
  | JsNum.val z => intToChars z

/-- JavaScript `String.prototype.split` with a one-character separator:
splits at every occurrence, keeping empty segments, and always returns at
least one segment. -/
def splitOnChar (sep : Char) : List Char → List (List Char)
  | [] => [[]]
  | c :: cs =>
    let r := splitOnChar sep cs
    if c = sep then [] :: r else (c :: r.headD []) :: r.tail

/-- The whitespace characters recognised (this model covers the ASCII ones;
none of them can occur inside a digit run, which is all the theorems use). -/
def isJsSpace (c : Char) : Bool := c == ' ' || c == '\t' || c == '\n' || c == '\r'

/-- The longest leading run of decimal digits. -/
def leadingDigits (l : List Char) : List Char := l.takeWhile isDigitChar

/-- Value of the longest leading digit run, `none` if there is none
(the `NaN` result of `parseInt`). -/
def parseDigits (l : List Char) : Option Nat :=
  if leadingDigits l = [] then none else some (charsVal (leadingDigits l))

/-- JavaScript `parseInt(s, 10)`: skip leading whitespace, read an optional
sign, then the longest digit run; `none` models `NaN`. -/
def jsParseInt (l : List Char) : Option Int :=
  match l.dropWhile isJsSpace with
  | [] => none
  | c :: rest =>
    if c = '-' then (parseDigits rest).map (fun n => -(Int.ofNat n))
    else if c = '+' then (parseDigits rest).map Int.ofNat
    else (parseDigits (c :: rest)).map Int.ofNat

/-- The object returned by `parseFlutterVersion` (`src/index.js`): the three
base components coerced with `parseInt(x, 10) || 0`, the build counter, the
raw base segment and the full input. -/
structure ParsedVersion where
  major : Int
  minor : Int
  patch : Int
  build : JsNum
  base : List Char
  full : List Char
deriving DecidableEq

/-- One base component: `parseInt(baseParts[i], 10) || 0` — a missing
component (`undefined`) and a `NaN` parse both coerce to `0`. -/
def versionComponent (baseParts : List (List Char)) (i : Nat) : Int :=
  match baseParts.get? i with
  | none => 0
  | some cs => (jsParseInt cs).getD 0

/-- The build counter: `parts[1] ? parseInt(parts[1], 10) : 0` — an absent or
empty segment gives `0`; a present non-numeric segment gives `NaN`. -/
def buildOf : Option (List Char) → JsNum
  | none => JsNum.val 0
  | some t =>
    if t = [] then JsNum.val 0
    else
      match jsParseInt t with
      | none => JsNum.nan
      | some z => JsNum.val z

/-- `parseFlutterVersion` from `src/index.js`: split on `'+'`, split the base
on `'.'`, coerce the three base components, read the build counter.  A falsy
(empty) input returns `null`. -/
def parseFlutterVersion (s : String) : Option ParsedVersion :=
  if s.data = [] then none
  else
    some
      { major := versionComponent (splitOnChar '.' ((splitOnChar '+' s.data).headD [])) 0
        minor := versionComponent (splitOnChar '.' ((splitOnChar '+' s.data).headD [])) 1
        patch := versionComponent (splitOnChar '.' ((splitOnChar '+' s.data).headD [])) 2
        build := buildOf ((splitOnChar '+' s.data).get? 1)
        base := (splitOnChar '+' s.data).headD []
        full := s.data }

/-- `Number.MAX_SAFE_INTEGER`, the bound the `semver` package places on each
numeric release component. -/
def maxSafeInteger : Nat := 2 ^ 53 - 1

/-- A strict `semver` numeric identifier: a non-empty digit string without a
leading zero (except `"0"` itself), valued at most `MAX_SAFE_INTEGER`. -/
def strictNumVal (l : List Char) : Option Nat :=
  if l ≠ [] ∧ l.all isDigitChar = true ∧ (l.headD ' ' = '0' → l = ['0']) ∧
      charsVal l ≤ maxSafeInteger
  then some (charsVal l) else none

/-- The `semver` package's strict parse of a release triple, modelled for the
plain numeric fragment: an optional `v` prefix followed by three strict
numeric identifiers separated by dots.  Anything else — including prerelease
suffixes, which never arise on the numeric version domain of the theorems
below — is `none`, modelling the thrown `Invalid Version` `TypeError`. -/
def semverParseBase (l : List Char) : Option (Nat × Nat × Nat) :=
  match splitOnChar '.' (if l.headD ' ' = 'v' then l.tail else l) with
  | [x, y, z] =>
    match strictNumVal x, strictNumVal y, strictNumVal z with
    | some a, some b, some c => some (a, b, c)
    | _, _, _ => none
  | _ => none

/-- Three-valued comparison of naturals, as an integer in `{-1, 0, 1}`. -/
def cmpNat (x y : Nat) : Int := if x < y then -1 else if y < x then 1 else 0

/-- `semver.compare` on two parsed release triples: `major.minor.patch`
precedence. -/
def semverCompareInt (a b : Nat × Nat × Nat) : Int :=
  if cmpNat a.1 b.1 ≠ 0 then cmpNat a.1 b.1
  else if cmpNat a.2.1 b.2.1 ≠ 0 then cmpNat a.2.1 b.2.1
  else cmpNat a.2.2 b.2.2

/-- `semver.compare` on two base strings; `none` models the `TypeError`
thrown when either string is not a valid version. -/
def semverCompare (a b : List Char) : Option Int :=
  match semverParseBase a, semverParseBase b with
  | some ta, some tb => some (semverCompareInt ta tb)
  | _, _ => none

/-- `compareVersions` from `src/index.js`: `0` if either side fails to parse;
otherwise `semver.compare` on the bases (a thrown `TypeError` propagates,
modelled by `none`), with the build counters as tie-break. -/
def compareVersions (current previous : String) : Option Int :=
  match parseFlutterVersion current, parseFlutterVersion previous with
  | some cp, some pp =>
    match semverCompare cp.base pp.base with
    | none => none
    | some bc =>
      if bc ≠ 0 then some bc
      else if jsGtB cp.build pp.build then some 1
      else if jsLtB cp.build pp.build then some (-1)
      else some 0
  | _, _ => some 0

/-- The superseded revision of `compareVersions` kept in the repository
(second revision bundled in `src/index.js`), whose build tie-break reads
`if (currentParsed.build <= previousParsed.build) return -1`. -/
def compareVersionsLegacy (current previous : String) : Option Int :=
  match parseFlutterVersion current, parseFlutterVersion previous with
  | some cp, some pp =>
    match semverCompare cp.base pp.base with
    | none => none
    | some bc =>
      if bc ≠ 0 then some bc
      else if jsGtB cp.build pp.build then some 1
      else if jsLeB cp.build pp.build then some (-1)
      else some 0
  | _, _ => some 0

/-- `generateNextVersion` from `src/index.js`: bootstrap `"1.0.0+1"` when the
input does not parse, otherwise re-interpolate with patch and build both
incremented. -/
def generateNextVersion (s : String) : String :=
  match parseFlutterVersion s with
  | none => "1.0.0+1"
  | some p =>
    ⟨intToChars p.major ++ '.' :: intToChars p.minor ++ '.' ::
      intToChars (p.patch + 1) ++ '+' :: jsNumToChars (jsNumAdd1 p.build)⟩

/-- The abstract data-model version of the spec: four natural components. -/
structure Version where
  major : Nat
  minor : Nat
  patch : Nat
  build : Nat
deriving DecidableEq

/-- The canonical base string `major.minor.patch` of a version. -/
def baseChars (v : Version) : List Char :=
  natToChars v.major ++ ('.' :: (natToChars v.minor ++ ('.' :: natToChars v.patch)))

/-- The canonical full string `major.minor.patch+build` of a version. -/
def fullChars (v : Version) : List Char := baseChars v ++ '+' :: natToChars v.build

/-- Canonical rendering of a version as a string. -/
def formatVersion (v : Version) : String := ⟨fullChars v⟩

/-- All components at most `MAX_SAFE_INTEGER`, the range where `semver`
accepts the base and JavaScript float arithmetic is exact. -/
def Version.Bounded (v : Version) : Prop :=
  v.major ≤ maxSafeInteger ∧ v.minor ≤ maxSafeInteger ∧
    v.patch ≤ maxSafeInteger ∧ v.build ≤ maxSafeInteger

/-- All components strictly below `MAX_SAFE_INTEGER`: `Bounded` with headroom
for one increment. -/
def Version.Safe (v : Version) : Prop :=
  v.major < maxSafeInteger ∧ v.minor < maxSafeInteger ∧
    v.patch < maxSafeInteger ∧ v.build < maxSafeInteger

instance (v : Version) : Decidable v.Bounded := by unfold Version.Bounded; infer_instance

instance (v : Version) : Decidable v.Safe := by unfold Version.Safe; infer_instance

/-- The pure comparison on abstract versions that `compareVersions` computes
on canonical strings: base precedence, then the build counter. -/
def pureCompare (a b : Version) : Int :=
  if semverCompareInt (a.major, a.minor, a.patch) (b.major, b.minor, b.patch) ≠ 0
  then semverCompareInt (a.major, a.minor, a.patch) (b.major, b.minor, b.patch)
  else if b.build < a.build then 1 else if a.build < b.build then -1 else 0

/-- Strict lexicographic order on `(major, minor, patch, build)`. -/
def vLess (a b : Version) : Prop :=
  a.major < b.major ∨ (a.major = b.major ∧
    (a.minor < b.minor ∨ (a.minor = b.minor ∧
      (a.patch < b.patch ∨ (a.patch = b.patch ∧ a.build < b.build)))))

/-- How the commit loop of `findPreviousVersion` ends: an early `return`
from inside the loop, or falling out of it with the accumulated
`sameVersionCount` and `foundVersions`. -/
inductive ScanExit where
  | early (result : String)
  | exhausted (count : Nat) (found : List String)
deriving DecidableEq

/-- The commit loop of `findPreviousVersion` (`src/index.js`): each
observation is the truthy `version` field read from `pubspec.yaml` at that
commit (`none` when the file or field was missing or unreadable, which the
loop skips).  A version equal to the current one bumps `sameVersionCount`;
the first different one returns — the current version itself when the count
exceeds one, otherwise that different version. -/
def scanLoop (cur : String) : List (Option String) → Nat → List String → ScanExit
  | [], count, found => ScanExit.exhausted count found
  | none :: rest, count, found => scanLoop cur rest count found
  | some v :: rest, count, found =>
    if v = cur then scanLoop cur rest (count + 1) (found ++ [v])
    else if count > 1 then ScanExit.early cur else ScanExit.early v

/-- The code after the loop of `findPreviousVersion`: on exhaustion, reuse
detection (`count > 1`) returns the current version, otherwise the fallback
searches `foundVersions` for a version different from the current one, and
`null` is returned when nothing applies. -/
def scanFinish (cur : String) : ScanExit → Option String
  | ScanExit.early r => some r
  | ScanExit.exhausted count found =>
    if count > 1 then some cur
    else
      match found.find? (fun v => v != cur) with
      | some w => some w
      | none => none

/-- The pure core of `findPreviousVersion`: the scan of the observed history,
newest first.  (The surrounding fetch/unshallow/rev-list plumbing is the
external history provider; an empty observation list also covers the
`no commit history found` early return, which likewise yields `null`.) -/
def findPreviousVersion (obs : List (Option String)) (cur : String) : Option String :=
  scanFinish cur (scanLoop cur obs 0 [])

/-- The versions actually observed during the scan, in scan order. -/
def observedVersions (obs : List (Option String)) : List String := obs.filterMap id

/-- The version of the chronologically first scanned commit whose version
differs from the current one. -/
def firstDifferentVersion (obs : List (Option String)) (cur : String) : Option String :=
  (observedVersions obs).find? (fun v => v != cur)

/-- The outputs of one run of the action: the `previous-version` output, the
final `current-version` output, the `version-updated` output (`none` when the
code path never sets it), and the `new-version` output. -/
structure RunOutcome where
  previousOut : String
  currentOut : String
  updated : Option Bool
  newVersion : Option String
deriving DecidableEq

/-- Result of one run: `failed` models the catch-all `core.setFailed` path. -/
inductive RunResult where
  | failed
  | done (outcome : RunOutcome)
deriving DecidableEq

/-- The decision part of `run()` (`src/index.js`), after the current version
has been read and `findPreviousVersion` has answered: no previous version
means first build; otherwise `compareVersions` runs first (a thrown
`TypeError` aborts the run), then exact string equality triggers the reuse
correction from the current version, a greater comparison accepts, a lower
comparison corrects from the previous version, and any remaining case falls
through every branch leaving `version-updated` unset.  The `pubspec.yaml`
write and the commit/push of the correction branches are external effects
modelled as succeeding. -/
def run (cur : String) (prev : Option String) : RunResult :=
  match prev with
  | none => RunResult.done ⟨"none", cur, some false, none⟩
  | some p =>
    match compareVersions cur p with
    | none => RunResult.failed
    | some comparison =>
      if cur = p then
        RunResult.done ⟨p, generateNextVersion cur, some true, some (generateNextVersion cur)⟩
      else if comparison > 0 then RunResult.done ⟨p, cur, some false, none⟩
      else if comparison < 0 then
        RunResult.done ⟨p, generateNextVersion p, some true, some (generateNextVersion p)⟩
      else RunResult.done ⟨p, cur, none, none⟩

/-- Outcomes of the git subprocesses that `commitAndPush` (`src/index.js`)
drives, one field per step that can affect its control flow (steps run with
`throwOnError = false` cannot). -/
structure GitEnv where
  configOk : Bool
  statusOutput : String
  addOk : Bool
  commitOk : Bool
  tagCreateOk : Bool
  pushBranchOk : Bool
  pushHeadOk : Bool
  tagPushOk : Bool

/-- Result of `commitAndPush`: an early return with nothing to commit, a
completed run recording whether the tag push succeeded, or a thrown error. -/
inductive CommitPushResult where
  | noChanges
  | success (tagPushed : Bool)
  | failure
deriving DecidableEq

/-- Control flow of `commitAndPush` (`src/index.js`): configure git, stop
early on a clean tree, stage, commit and tag (each throwing on failure),
push the branch with one fallback strategy (both failing throws), then push
the tag — a tag-push failure is only logged and the function still returns
normally. -/
def commitAndPush (env : GitEnv) : CommitPushResult :=
  if !env.configOk then CommitPushResult.failure
  else if env.statusOutput = "" then CommitPushResult.noChanges
  else if !env.addOk then CommitPushResult.failure
  else if !env.commitOk then CommitPushResult.failure
  else if !env.tagCreateOk then CommitPushResult.failure
  else if env.pushBranchOk || env.pushHeadOk then CommitPushResult.success env.tagPushOk
  else CommitPushResult.failure

/-! ### Digit characters -/

theorem digitChar_toNat {d : Nat} (h : d < 10) : (digitChar d).toNat = 48 + d := by
  interval_cases d <;> rfl

theorem isDigitChar_digitChar {d : Nat} (h : d < 10) : isDigitChar (digitChar d) = true := by
  simp only [isDigitChar, digitChar_toNat h, Bool.and_eq_true, decide_eq_true_eq]
  omega

theorem digitVal_digitChar {d : Nat} (h : d < 10) : digitVal (digitChar d) = d := by
  simp only [digitVal, digitChar_toNat h]
  omega

theorem digitChar_ne_zero_char {d : Nat} (h : d < 10) (hd : d ≠ 0) : digitChar d ≠ '0' := by
  intro he
  have : (digitChar d).toNat = 48 := by rw [he]; rfl
  rw [digitChar_toNat h] at this
  omega

theorem isDigitChar_toNat {c : Char} (h : isDigitChar c = true) :
    48 ≤ c.toNat ∧ c.toNat ≤ 57 := by
  simpa only [isDigitChar, Bool.and_eq_true, decide_eq_true_eq] using h

theorem isDigitChar_ne_plus {c : Char} (h : isDigitChar c = true) : c ≠ '+' := by
  intro he
  have h2 := isDigitChar_toNat h
  rw [he] at h2
  revert h2; decide

theorem isDigitChar_ne_dot {c : Char} (h : isDigitChar c = true) : c ≠ '.' := by
  intro he
  have h2 := isDigitChar_toNat h
  rw [he] at h2
  revert h2; decide

theorem isDigitChar_ne_minus {c : Char} (h : isDigitChar c = true) : c ≠ '-' := by
  intro he
  have h2 := isDigitChar_toNat h
  rw [he] at h2
  revert h2; decide

theorem isDigitChar_ne_v {c : Char} (h : isDigitChar c = true) : c ≠ 'v' := by
  intro he
  have h2 := isDigitChar_toNat h
  rw [he] at h2
  revert h2; decide

theorem isDigitChar_not_space {c : Char} (h : isDigitChar c = true) : isJsSpace c = false := by
  have h2 := isDigitChar_toNat h
  simp only [isJsSpace, Bool.or_eq_false_iff, beq_eq_false_iff_ne]
  refine ⟨⟨⟨?_, ?_⟩, ?_⟩, ?_⟩ <;> · intro he; rw [he] at h2; revert h2; decide

/-! ### Decimal printing -/

theorem natToRevDigits_eq_digits :
    ∀ f n, n ≤ f → natToRevDigits f n = (Nat.digits 10 n).map digitChar := by
  intro f
  induction f with
  | zero =>
    intro n hn
    interval_cases n
    simp [natToRevDigits]
  | succ f ih =>
    intro n hn
    match n with
    | 0 => simp [natToRevDigits]
    | m + 1 =>
      have hdiv : (m + 1) / 10 ≤ f := by
        have := Nat.div_lt_self (Nat.succ_pos m) (by norm_num : 1 < 10)
        omega
      rw [natToRevDigits, ih _ hdiv, Nat.digits_def' (by norm_num : 1 < 10) (Nat.succ_pos m),
        List.map_cons]

theorem natToChars_eq {n : Nat} (hn : n ≠ 0) :
    natToChars n = ((Nat.digits 10 n).map digitChar).reverse := by
  rw [natToChars, if_neg hn, natToRevDigits_eq_digits n n le_rfl]

theorem natToChars_ne_nil (n : Nat) : natToChars n ≠ [] := by
  by_cases hn : n = 0
  · subst hn; simp [natToChars]
  · rw [natToChars_eq hn]
    simp [Nat.digits_ne_nil_iff_ne_zero, hn]

theorem mem_natToChars_digit {n : Nat} {c : Char} (h : c ∈ natToChars n) :
    isDigitChar c = true := by
  by_cases hn : n = 0
  · subst hn
    simp only [natToChars, if_true, reduceIte, List.mem_singleton] at h
    subst h; decide
  · rw [natToChars_eq hn] at h
    rw [List.mem_reverse, List.mem_map] at h
    obtain ⟨d, hd, rfl⟩ := h
    exact isDigitChar_digitChar (Nat.digits_lt_base (by norm_num) hd)

theorem natToChars_head_ne_zero {n : Nat} (hn : n ≠ 0) {c : Char} {cs : List Char}
    (h : natToChars n = c :: cs) : c ≠ '0' := by
  have hdnil : Nat.digits 10 n ≠ [] := Nat.digits_ne_nil_iff_ne_zero.mpr hn
  have h1 : (natToChars n).head? = some c := by rw [h]; rfl
  rw [natToChars_eq hn, List.head?_reverse, List.getLast?_map,
    List.getLast?_eq_getLast _ hdnil, Option.map_some'] at h1
  injection h1 with h1
  set d := (Nat.digits 10 n).getLast hdnil with hdd
  have hdm : d ∈ Nat.digits 10 n := List.getLast_mem hdnil
  have hlt : d < 10 := Nat.digits_lt_base (by norm_num) hdm
  have hdz : d ≠ 0 := Nat.getLast_digit_ne_zero 10 hn
  rw [← h1]
  exact digitChar_ne_zero_char hlt hdz

/-! ### Digit-string values -/

theorem charsVal_append_digit (l : List Char) (c : Char) :
    charsVal (l ++ [c]) = 10 * charsVal l + digitVal c := by
  simp [charsVal, List.foldl_append]

theorem charsVal_revMap (ds : List Nat) (hds : ∀ d ∈ ds, d < 10) :
    charsVal ((ds.map digitChar).reverse) = Nat.ofDigits 10 ds := by
  induction ds with
  | nil => simp [charsVal, Nat.ofDigits_nil]
  | cons d ds ih =>
    have hd : d < 10 := hds d (List.mem_cons_self d ds)
    rw [List.map_cons, List.reverse_cons, charsVal_append_digit,
      ih (fun x hx => hds x (List.mem_cons_of_mem d hx)), digitVal_digitChar hd,
      Nat.ofDigits_cons]
    omega

theorem charsVal_natToChars (n : Nat) : charsVal (natToChars n) = n := by
  by_cases hn : n = 0
  · subst hn; decide
  · rw [natToChars_eq hn,
      charsVal_revMap _ (fun d hd => Nat.digits_lt_base (by norm_num) hd),
      Nat.ofDigits_digits]

theorem leadingDigits_natToChars (n : Nat) : leadingDigits (natToChars n) = natToChars n :=
  List.takeWhile_eq_self_iff.mpr (fun c hc => mem_natToChars_digit hc)

theorem parseDigits_natToChars (n : Nat) : parseDigits (natToChars n) = some n := by
  rw [parseDigits, leadingDigits_natToChars, if_neg (natToChars_ne_nil n),
    charsVal_natToChars]

theorem natToChars_cons (n : Nat) :
    ∃ c cs, natToChars n = c :: cs ∧ isDigitChar c = true := by
  rcases hl : natToChars n with _ | ⟨c, cs⟩
  · exact absurd hl (natToChars_ne_nil n)
  · exact ⟨c, cs, rfl, mem_natToChars_digit (hl ▸ List.mem_cons_self c cs)⟩

theorem jsParseInt_natToChars (n : Nat) : jsParseInt (natToChars n) = some (Int.ofNat n) := by
  obtain ⟨c, cs, hl, hc⟩ := natToChars_cons n
  have hd : (natToChars n).dropWhile isJsSpace = c :: cs := by
    rw [hl, List.dropWhile_cons, isDigitChar_not_space hc]
    simp
  rw [jsParseInt, hd]
  show (if c = '-' then Option.map (fun n => -Int.ofNat n) (parseDigits cs)
      else if c = '+' then Option.map Int.ofNat (parseDigits cs)
      else Option.map Int.ofNat (parseDigits (c :: cs))) = some (Int.ofNat n)
  rw [if_neg (isDigitChar_ne_minus hc), if_neg (isDigitChar_ne_plus hc), ← hl,
    parseDigits_natToChars, Option.map_some']

/-! ### Splitting -/

theorem splitOnChar_ne_nil (sep : Char) (l : List Char) : splitOnChar sep l ≠ [] := by
  cases l with
  | nil => simp [splitOnChar]
  | cons c cs =>
    simp only [splitOnChar]
    split <;> simp

theorem splitOnChar_not_mem {sep : Char} {l : List Char} (h : sep ∉ l) :
    splitOnChar sep l = [l] := by
  induction l with
  | nil => rfl
  | cons c cs ih =>
    have hc : c ≠ sep := fun he => h (he ▸ List.mem_cons_self c cs)
    have hcs : sep ∉ cs := fun hm => h (List.mem_cons_of_mem c hm)
    simp only [splitOnChar, if_neg (fun he => hc he), ih hcs]
    rfl

theorem splitOnChar_append {sep : Char} {A : List Char} (B : List Char) (h : sep ∉ A) :
    splitOnChar sep (A ++ sep :: B) = A :: splitOnChar sep B := by
  induction A with
  | nil => simp [splitOnChar]
  | cons c A ih =>
    have hc : c ≠ sep := fun he => h (he ▸ List.mem_cons_self c A)
    have hA : sep ∉ A := fun hm => h (List.mem_cons_of_mem c hm)
    rw [List.cons_append]
    simp only [splitOnChar]
    rw [if_neg hc, ih hA]
    rfl

theorem mem_of_mem_splitOnChar {sep : Char} {l : List Char} {piece : List Char} {c : Char}
    (hp : piece ∈ splitOnChar sep l) (hc : c ∈ piece) : c ∈ l := by
  induction l generalizing piece with
  | nil =>
    simp only [splitOnChar, List.mem_singleton] at hp
    subst hp
    exact absurd hc (List.not_mem_nil c)
  | cons x xs ih =>
    rcases hr : splitOnChar sep xs with _ | ⟨rh, rt⟩
    · exact absurd hr (splitOnChar_ne_nil sep xs)
    simp only [splitOnChar, hr, List.headD_cons, List.tail_cons] at hp
    by_cases hx : x = sep
    · rw [if_pos hx] at hp
      rcases List.mem_cons.mp hp with h1 | h1
      · subst h1; exact absurd hc (List.not_mem_nil c)
      · have h2 : piece ∈ splitOnChar sep xs := by rw [hr]; exact h1
        exact List.mem_cons_of_mem x (ih h2 hc)
    · rw [if_neg hx] at hp
      rcases List.mem_cons.mp hp with h1 | h1
      · subst h1
        rcases List.mem_cons.mp hc with h2 | h2
        · subst h2; exact List.mem_cons_self _ _
        · have h3 : rh ∈ splitOnChar sep xs := by rw [hr]; exact List.mem_cons_self rh rt
          exact List.mem_cons_of_mem x (ih h3 h2)
      · have h2 : piece ∈ splitOnChar sep xs := by
          rw [hr]; exact List.mem_cons_of_mem rh h1
        exact List.mem_cons_of_mem x (ih h2 hc)

/-! ### Canonical version strings round-trip through the parser -/

theorem mem_baseChars {v : Version} {c : Char} (h : c ∈ baseChars v) :
    isDigitChar c = true ∨ c = '.' := by
  rw [baseChars] at h
  rcases List.mem_append.mp h with h1 | h1
  · exact Or.inl (mem_natToChars_digit h1)
  rcases List.mem_cons.mp h1 with h2 | h2
  · exact Or.inr h2
  rcases List.mem_append.mp h2 with h3 | h3
  · exact Or.inl (mem_natToChars_digit h3)
  rcases List.mem_cons.mp h3 with h4 | h4
  · exact Or.inr h4
  · exact Or.inl (mem_natToChars_digit h4)

theorem plus_not_mem_baseChars (v : Version) : '+' ∉ baseChars v := by
  intro h
  rcases mem_baseChars h with h1 | h1
  · exact isDigitChar_ne_plus h1 rfl
  · exact absurd h1 (by decide)

theorem baseChars_ne_nil (v : Version) : baseChars v ≠ [] := by
  simp only [baseChars]
  intro h
  exact natToChars_ne_nil v.major (List.append_eq_nil.mp h).1

theorem fullChars_ne_nil (v : Version) : fullChars v ≠ [] := by
  simp only [fullChars]
  intro h
  exact baseChars_ne_nil v (List.append_eq_nil.mp h).1

theorem splitPlus_fullChars (v : Version) :
    splitOnChar '+' (fullChars v) = [baseChars v, natToChars v.build] := by
  rw [fullChars, splitOnChar_append _ (plus_not_mem_baseChars v),
    splitOnChar_not_mem (fun h => isDigitChar_ne_plus (mem_natToChars_digit h) rfl)]

theorem splitDot_baseChars (v : Version) :
    splitOnChar '.' (baseChars v) =
      [natToChars v.major, natToChars v.minor, natToChars v.patch] := by
  have hmaj : '.' ∉ natToChars v.major :=
    fun h => isDigitChar_ne_dot (mem_natToChars_digit h) rfl
  have hmin : '.' ∉ natToChars v.minor :=
    fun h => isDigitChar_ne_dot (mem_natToChars_digit h) rfl
  have hpat : '.' ∉ natToChars v.patch :=
    fun h => isDigitChar_ne_dot (mem_natToChars_digit h) rfl
  rw [baseChars, splitOnChar_append _ hmaj, splitOnChar_append _ hmin,
    splitOnChar_not_mem hpat]

theorem parseFlutterVersion_format (v : Version) :
    parseFlutterVersion (formatVersion v) =
      some ⟨Int.ofNat v.major, Int.ofNat v.minor, Int.ofNat v.patch,
        JsNum.val (Int.ofNat v.build), baseChars v, fullChars v⟩ := by
  have hdata : (formatVersion v).data = fullChars v := rfl
  rw [parseFlutterVersion, hdata, if_neg (fullChars_ne_nil v), splitPlus_fullChars]
  have hhead : ([baseChars v, natToChars v.build].headD []) = baseChars v := rfl
  have hget : ([baseChars v, natToChars v.build].get? 1) = some (natToChars v.build) := rfl
  rw [hhead, hget, splitDot_baseChars]
  have hbuild : buildOf (some (natToChars v.build)) = JsNum.val (Int.ofNat v.build) := by
    rw [buildOf, if_neg (natToChars_ne_nil v.build), jsParseInt_natToChars]
  have hc0 : versionComponent [natToChars v.major, natToChars v.minor, natToChars v.patch] 0
      = Int.ofNat v.major := by
    rw [versionComponent]
    show ((jsParseInt (natToChars v.major)).getD 0) = Int.ofNat v.major
    rw [jsParseInt_natToChars]; rfl
  have hc1 : versionComponent [natToChars v.major, natToChars v.minor, natToChars v.patch] 1
      = Int.ofNat v.minor := by
    rw [versionComponent]
    show ((jsParseInt (natToChars v.minor)).getD 0) = Int.ofNat v.minor
    rw [jsParseInt_natToChars]; rfl
  have hc2 : versionComponent [natToChars v.major, natToChars v.minor, natToChars v.patch] 2
      = Int.ofNat v.patch := by
    rw [versionComponent]
    show ((jsParseInt (natToChars v.patch)).getD 0) = Int.ofNat v.patch
    rw [jsParseInt_natToChars]; rfl
  rw [hbuild, hc0, hc1, hc2]

/-! ### The semver model on canonical bases -/

theorem strictNumVal_natToChars {n : Nat} (hn : n ≤ maxSafeInteger) :
    strictNumVal (natToChars n) = some n := by
  rw [strictNumVal, if_pos, charsVal_natToChars]
  refine ⟨natToChars_ne_nil n, ?_, ?_, ?_⟩
  · exact List.all_eq_true.mpr (fun c hc => mem_natToChars_digit hc)
  · intro hhead
    by_cases hz : n = 0
    · subst hz; rfl
    · obtain ⟨c, cs, hl, _⟩ := natToChars_cons n
      rw [hl] at hhead
      exact absurd hhead (by simpa using natToChars_head_ne_zero hz hl)
  · rw [charsVal_natToChars]; exact hn

theorem semverParseBase_baseChars {v : Version} (hv : v.Bounded) :
    semverParseBase (baseChars v) = some (v.major, v.minor, v.patch) := by
  obtain ⟨c, cs, hl, hc⟩ := natToChars_cons v.major
  have hhead : (baseChars v).headD ' ' = c := by
    rw [baseChars, hl]; rfl
  have hnv : ¬((baseChars v).headD ' ' = 'v') := by
    rw [hhead]; exact isDigitChar_ne_v hc
  rw [semverParseBase, if_neg hnv, splitDot_baseChars]
  simp only [strictNumVal_natToChars hv.1, strictNumVal_natToChars hv.2.1,
    strictNumVal_natToChars hv.2.2.1]

theorem compareVersions_format {a b : Version} (ha : a.Bounded) (hb : b.Bounded) :
    compareVersions (formatVersion a) (formatVersion b) = some (pureCompare a b) := by
  rw [compareVersions, parseFlutterVersion_format a, parseFlutterVersion_format b]
  show (match semverCompare (baseChars a) (baseChars b) with
    | none => none
    | some bc =>
      if bc ≠ 0 then some bc
      else if jsGtB (JsNum.val (Int.ofNat a.build)) (JsNum.val (Int.ofNat b.build)) then some 1
      else if jsLtB (JsNum.val (Int.ofNat a.build)) (JsNum.val (Int.ofNat b.build)) then some (-1)
      else some 0) = some (pureCompare a b)
  rw [semverCompare, semverParseBase_baseChars ha, semverParseBase_baseChars hb]
  show (if semverCompareInt (a.major, a.minor, a.patch) (b.major, b.minor, b.patch) ≠ 0
      then some (semverCompareInt (a.major, a.minor, a.patch) (b.major, b.minor, b.patch))
      else if jsGtB (JsNum.val (Int.ofNat a.build)) (JsNum.val (Int.ofNat b.build)) then some 1
      else if jsLtB (JsNum.val (Int.ofNat a.build)) (JsNum.val (Int.ofNat b.build)) then some (-1)
      else some 0) = some (pureCompare a b)
  have hgt : jsGtB (JsNum.val (Int.ofNat a.build)) (JsNum.val (Int.ofNat b.build))
      = decide (b.build < a.build) := by
    simp [jsGtB, Int.ofNat_lt]
  have hlt : jsLtB (JsNum.val (Int.ofNat a.build)) (JsNum.val (Int.ofNat b.build))
      = decide (a.build < b.build) := by
    simp [jsLtB, Int.ofNat_lt]
  rw [hgt, hlt, pureCompare]
  by_cases h1 : semverCompareInt (a.major, a.minor, a.patch) (b.major, b.minor, b.patch) ≠ 0
  · rw [if_pos h1, if_pos h1]
  · rw [if_neg h1, if_neg h1]
    by_cases h2 : b.build < a.build
    · simp [h2]
    · rw [if_neg (by simpa using h2), if_neg h2]
      by_cases h3 : a.build < b.build
      · simp [h3]
      · rw [if_neg (by simpa using h3), if_neg h3]

/-! ### The pure comparison is a strict total order -/

theorem pureCompare_eq_zero_iff (a b : Version) :
    pureCompare a b = 0 ↔
      a.major = b.major ∧ a.minor = b.minor ∧ a.patch = b.patch ∧ a.build = b.build := by
  simp only [pureCompare, semverCompareInt, cmpNat]
  split_ifs <;> (try omega) <;>
    (constructor <;> intro h1 <;> first | exact h1.elim | omega)

theorem pureCompare_eq_one_iff (a b : Version) : pureCompare a b = 1 ↔ vLess b a := by
  simp only [pureCompare, semverCompareInt, cmpNat, vLess]
  split_ifs <;> (try omega) <;>
    (constructor <;> intro h1 <;> first | exact h1.elim | omega)

theorem pureCompare_eq_negone_iff (a b : Version) : pureCompare a b = -1 ↔ vLess a b := by
  simp only [pureCompare, semverCompareInt, cmpNat, vLess]
  split_ifs <;> (try omega) <;>
    (constructor <;> intro h1 <;> first | exact h1.elim | omega)

theorem vLess_trans {a b c : Version} (h1 : vLess a b) (h2 : vLess b c) : vLess a c := by
  simp only [vLess] at h1 h2 ⊢
  omega

/-- `compareVersions` on two copies of the same string is `0` (or a thrown
comparison when `semver` rejects the base); it can never be negative. -/
theorem compareVersions_self (s : String) :
    compareVersions s s = none ∨ compareVersions s s = some 0 := by
  rcases hp : parseFlutterVersion s with _ | p
  · right
    simp [compareVersions, hp]
  rcases hsc : semverCompare p.base p.base with _ | bc
  · left
    simp [compareVersions, hp, hsc]
  · have hbc : bc = 0 := by
      rcases hq : semverParseBase p.base with _ | t
      · rw [semverCompare, hq] at hsc
        exact Option.noConfusion hsc
      · rw [semverCompare, hq] at hsc
        have h2 : semverCompareInt t t = bc := Option.some.inj hsc
        rw [← h2]
        simp [semverCompareInt, cmpNat]
    subst hbc
    right
    have hgt : jsGtB p.build p.build = false := by
      rcases p.build with _ | z <;> simp [jsGtB]
    have hlt : jsLtB p.build p.build = false := by
      rcases p.build with _ | z <;> simp [jsLtB]
    simp [compareVersions, hp, hsc, hgt, hlt]

theorem Version.Safe.bounded {v : Version} (h : v.Safe) : v.Bounded :=
  ⟨le_of_lt h.1, le_of_lt h.2.1, le_of_lt h.2.2.1, le_of_lt h.2.2.2⟩

theorem Version.Safe.bump_bounded {v : Version} (h : v.Safe) :
    Version.Bounded ⟨v.major, v.minor, v.patch + 1, v.build + 1⟩ := by
  exact ⟨le_of_lt h.1, le_of_lt h.2.1, Nat.succ_le_of_lt h.2.2.1,
    Nat.succ_le_of_lt h.2.2.2⟩

theorem intToChars_ofNat (n : Nat) : intToChars (Int.ofNat n) = natToChars n := by
  rw [intToChars, if_neg (by simp)]
  rfl

/-- Increment round-trip of the exact-`Int` model.  This is a fact about the
model, which coincides with JavaScript only on the float-exact range: claim
theorems using it restrict the components to `Version.Safe`. -/
theorem generateNextVersion_format (v : Version) :
    generateNextVersion (formatVersion v) =
      formatVersion ⟨v.major, v.minor, v.patch + 1, v.build + 1⟩ := by
  simp only [generateNextVersion, parseFlutterVersion_format]
  rw [formatVersion]
  apply congrArg
  have h1 : Int.ofNat v.patch + 1 = Int.ofNat (v.patch + 1) := rfl
  have h2 : jsNumToChars (jsNumAdd1 (JsNum.val (Int.ofNat v.build))) =
      natToChars (v.build + 1) := by
    show intToChars (Int.ofNat v.build + 1) = natToChars (v.build + 1)
    rw [show Int.ofNat v.build + 1 = Int.ofNat (v.build + 1) from rfl, intToChars_ofNat]
  rw [h1, intToChars_ofNat, intToChars_ofNat, intToChars_ofNat, h2, fullChars, baseChars]
  simp [List.append_assoc]

/-! ### Claims about the version codec -/

/-- Claim C2: `compareVersions` is a strict total order on versions — it is
reflexive-equal (`compare v v = 0`), antisymmetric and transitive, and it
returns `equal` exactly when all four integer components coincide.  Versions
are the abstract data-model values rendered canonically; components stay in
the float-exact, `semver`-accepted range. -/
theorem compareVersions_strict_total_order (a b c : Version)
    (ha : a.Safe) (hb : b.Safe) (hc : c.Safe) :
    compareVersions (formatVersion a) (formatVersion a) = some 0 ∧
    (compareVersions (formatVersion a) (formatVersion b) = some 1 ↔
      compareVersions (formatVersion b) (formatVersion a) = some (-1)) ∧
    (compareVersions (formatVersion a) (formatVersion b) = some 1 →
      compareVersions (formatVersion b) (formatVersion c) = some 1 →
      compareVersions (formatVersion a) (formatVersion c) = some 1) ∧
    (compareVersions (formatVersion a) (formatVersion b) = some 0 ↔
      (a.major = b.major ∧ a.minor = b.minor ∧ a.patch = b.patch ∧ a.build = b.build)) := by
  rw [compareVersions_format ha.bounded ha.bounded, compareVersions_format ha.bounded hb.bounded,
    compareVersions_format hb.bounded ha.bounded, compareVersions_format hb.bounded hc.bounded,
    compareVersions_format ha.bounded hc.bounded]
  simp only [Option.some.injEq]
  refine ⟨?_, ?_, ?_, ?_⟩
  · exact (pureCompare_eq_zero_iff a a).mpr ⟨rfl, rfl, rfl, rfl⟩
  · exact ⟨fun h => (pureCompare_eq_negone_iff b a).mpr ((pureCompare_eq_one_iff a b).mp h),
      fun h => (pureCompare_eq_one_iff a b).mpr ((pureCompare_eq_negone_iff b a).mp h)⟩
  · intro h1 h2
    exact (pureCompare_eq_one_iff a c).mpr
      (vLess_trans ((pureCompare_eq_one_iff b c).mp h2) ((pureCompare_eq_one_iff a b).mp h1))
  · exact pureCompare_eq_zero_iff a b

/-- Witness for C2 at the concrete version `1.2.3+4`. -/
theorem compareVersions_strict_total_order_witness :
    Version.Safe ⟨1, 2, 3, 4⟩ ∧ formatVersion ⟨1, 2, 3, 4⟩ = "1.2.3+4" ∧
      compareVersions (formatVersion ⟨1, 2, 3, 4⟩) (formatVersion ⟨1, 2, 3, 4⟩) = some 0 :=
  ⟨by decide, by decide,
    (compareVersions_strict_total_order ⟨1, 2, 3, 4⟩ ⟨1, 2, 3, 4⟩ ⟨1, 2, 3, 4⟩
      (by decide) (by decide) (by decide)).1⟩

/-- The superseded revision of `compareVersions` bundled in the repository
(the one with the `<=` build tie-break) is not reflexive: it answers `-1` on
two equal versions, contradicting both the current revision and the unit
test expecting `0`. -/
theorem compareVersionsLegacy_not_reflexive :
    compareVersionsLegacy "1.2.3+4" "1.2.3+4" = some (-1) := by decide

/-- Claim C6 counterexample: `"1.0.x"` parses successfully (the permissive
parser coerces the bad patch component to `0`), but comparing
`generateNextVersion "1.0.x" = "1.0.1+1"` against it does not yield
`greater` — `semver.compare` throws on the invalid base `"1.0.x"`. -/
theorem generateNextVersion_not_greater_counterexample :
    parseFlutterVersion "1.0.x" ≠ none ∧
    generateNextVersion "1.0.x" = "1.0.1+1" ∧
    compareVersions (generateNextVersion "1.0.x") "1.0.x" = none := by decide

/-- Claim C6 (amended): for every version whose string is a well-formed
numeric `major.minor.patch+build` rendering (components in the safe range),
`generateNextVersion` yields a version strictly greater under
`compareVersions`; for merely permissively-parsed strings with a non-numeric
base component the comparison throws instead of answering `greater`. -/
theorem generateNextVersion_strictly_greater (v : Version) (hv : v.Safe) :
    compareVersions (generateNextVersion (formatVersion v)) (formatVersion v) = some 1 := by
  rw [generateNextVersion_format, compareVersions_format hv.bump_bounded hv.bounded]
  simp only [Option.some.injEq]
  apply (pureCompare_eq_one_iff _ _).mpr
  exact Or.inr ⟨rfl, Or.inr ⟨rfl, Or.inl (Nat.lt_succ_self v.patch)⟩⟩

/-- Witness for C6 at the concrete version `1.2.3+4`. -/
theorem generateNextVersion_strictly_greater_witness :
    compareVersions (generateNextVersion (formatVersion ⟨1, 2, 3, 4⟩))
      (formatVersion ⟨1, 2, 3, 4⟩) = some 1 :=
  generateNextVersion_strictly_greater ⟨1, 2, 3, 4⟩ (by decide)

/-- Claim C7: `generateNextVersion` increments patch and build by one
simultaneously, leaving major and minor unchanged, and returns exactly the
bootstrap `"1.0.0+1"` on every input that fails to parse (the empty/absent
version string).  The increment part is stated on the float-exact range
(`Version.Safe`), where the exact-integer model coincides with JavaScript
double arithmetic — beyond `MAX_SAFE_INTEGER` the real `parseInt` and `+ 1`
round. -/
theorem generateNextVersion_spec :
    (∀ v : Version, v.Safe → generateNextVersion (formatVersion v) =
      formatVersion ⟨v.major, v.minor, v.patch + 1, v.build + 1⟩) ∧
    (∀ s : String, parseFlutterVersion s = none → generateNextVersion s = "1.0.0+1") := by
  refine ⟨fun v _ => generateNextVersion_format v, ?_⟩
  intro s hs
  rw [generateNextVersion, hs]

/-- Witness for C7: `2.3.4+5` bumps to `2.3.5+6`, and the empty string maps
to the bootstrap version. -/
theorem generateNextVersion_spec_witness :
    generateNextVersion (formatVersion ⟨2, 3, 4, 5⟩) = formatVersion ⟨2, 3, 5, 6⟩ ∧
      generateNextVersion "" = "1.0.0+1" :=
  ⟨generateNextVersion_spec.1 ⟨2, 3, 4, 5⟩ (by decide),
    generateNextVersion_spec.2 "" (by decide)⟩

/-! ### Claims about the parser invariant -/

theorem jsParseInt_nonneg {l : List Char} (h : '-' ∉ l) {z : Int}
    (hz : jsParseInt l = some z) : 0 ≤ z := by
  rw [jsParseInt] at hz
  rcases hd : l.dropWhile isJsSpace with _ | ⟨c, rest⟩
  · rw [hd] at hz
    exact Option.noConfusion hz
  · rw [hd] at hz
    have hcl : c ∈ l := by
      have hsub : List.Sublist (l.dropWhile isJsSpace) l := List.dropWhile_sublist isJsSpace
      exact hsub.subset (hd ▸ List.mem_cons_self c rest)
    have hcm : c ≠ '-' := fun he => h (he ▸ hcl)
    have hz2 : (if c = '-' then Option.map (fun n => -Int.ofNat n) (parseDigits rest)
        else if c = '+' then Option.map Int.ofNat (parseDigits rest)
        else Option.map Int.ofNat (parseDigits (c :: rest))) = some z := hz
    rw [if_neg hcm] at hz2
    by_cases hcp : c = '+'
    · rw [if_pos hcp] at hz2
      rcases hpd : parseDigits rest with _ | n
      · rw [hpd, Option.map_none'] at hz2
        exact Option.noConfusion hz2
      · rw [hpd, Option.map_some'] at hz2
        rw [← Option.some.inj hz2]
        exact Int.natCast_nonneg n
    · rw [if_neg hcp] at hz2
      rcases hpd : parseDigits (c :: rest) with _ | n
      · rw [hpd, Option.map_none'] at hz2
        exact Option.noConfusion hz2
      · rw [hpd, Option.map_some'] at hz2
        rw [← Option.some.inj hz2]
        exact Int.natCast_nonneg n

theorem versionComponent_nonneg {baseParts : List (List Char)} {i : Nat}
    (h : ∀ cs ∈ baseParts, '-' ∉ cs) : 0 ≤ versionComponent baseParts i := by
  have he : 0 ≤ versionComponent baseParts i ↔
      0 ≤ (match baseParts.get? i with
        | none => (0 : Int)
        | some cs => (jsParseInt cs).getD 0) := by rw [versionComponent]
  rw [he]
  rcases hg : baseParts.get? i with _ | cs
  · exact le_refl 0
  · show 0 ≤ (jsParseInt cs).getD 0
    have hcs : '-' ∉ cs := h cs (List.get?_mem hg)
    rcases hj : jsParseInt cs with _ | z
    · exact le_refl 0
    · exact jsParseInt_nonneg hcs hj

/-- Claim C8 counterexample: the permissive parser accepts `"1.-2.3"` and
produces a negative minor component, breaking the data-model invariant that
all four components are non-negative. -/
theorem parseFlutterVersion_negative_component :
    (parseFlutterVersion "1.-2.3").map ParsedVersion.minor = some (-2) := by decide

/-- Claim C8 (amended): for a non-empty version string containing no minus
sign, every parsed component is a non-negative integer (the build is either
such an integer or `NaN`, never a negative value), and a version string
without a `'+'` suffix parses with build `0`. -/
theorem parseFlutterVersion_nonnegative (s : String) (p : ParsedVersion)
    (hminus : '-' ∉ s.data) (hp : parseFlutterVersion s = some p) :
    0 ≤ p.major ∧ 0 ≤ p.minor ∧ 0 ≤ p.patch ∧
      (∀ z : Int, p.build = JsNum.val z → 0 ≤ z) ∧
      ('+' ∉ s.data → p.build = JsNum.val 0) := by
  rw [parseFlutterVersion] at hp
  by_cases hnil : s.data = []
  · rw [if_pos hnil] at hp
    exact Option.noConfusion hp
  rw [if_neg hnil] at hp
  have hp2 := (Option.some.inj hp).symm
  subst hp2
  have hbase : ∀ cs ∈ splitOnChar '.' ((splitOnChar '+' s.data).headD []),
      '-' ∉ cs := by
    intro cs hcs hm
    rcases hq : splitOnChar '+' s.data with _ | ⟨q, qs⟩
    · exact absurd hq (splitOnChar_ne_nil '+' s.data)
    have hqh : (splitOnChar '+' s.data).headD [] = q := by rw [hq]; rfl
    rw [hqh] at hcs
    have h1 : '-' ∈ q := mem_of_mem_splitOnChar hcs hm
    have h2 : '-' ∈ s.data :=
      mem_of_mem_splitOnChar (hq ▸ List.mem_cons_self q qs) h1
    exact hminus h2
  refine ⟨versionComponent_nonneg hbase, versionComponent_nonneg hbase,
    versionComponent_nonneg hbase, ?_, ?_⟩
  · intro z hz
    show 0 ≤ z
    have hzb : buildOf ((splitOnChar '+' s.data).get? 1) = JsNum.val z := hz
    rcases hg : (splitOnChar '+' s.data).get? 1 with _ | t
    · rw [hg] at hzb
      have h0 : (0 : Int) = z := JsNum.val.inj hzb
      omega
    · rw [hg] at hzb
      have ht : '-' ∉ t := by
        intro hm
        exact hminus (mem_of_mem_splitOnChar (List.get?_mem hg) hm)
      have hzb2 : (if t = [] then JsNum.val 0
          else match jsParseInt t with
            | none => JsNum.nan
            | some w => JsNum.val w) = JsNum.val z := hzb
      by_cases hte : t = []
      · rw [if_pos hte] at hzb2
        have h0 : (0 : Int) = z := JsNum.val.inj hzb2
        omega
      · rw [if_neg hte] at hzb2
        rcases hj : jsParseInt t with _ | w
        · rw [hj] at hzb2
          exact JsNum.noConfusion hzb2
        · rw [hj] at hzb2
          have hwz : w = z := JsNum.val.inj hzb2
          have := jsParseInt_nonneg ht hj
          omega
  · intro hplus
    have hsp : splitOnChar '+' s.data = [s.data] := splitOnChar_not_mem hplus
    have hg : (splitOnChar '+' s.data).get? 1 = none := by rw [hsp]; rfl
    show buildOf ((splitOnChar '+' s.data).get? 1) = JsNum.val 0
    rw [hg]
    rfl

/-- The concrete parse of `"1.2.3+4"`, used by the C8 witness. -/
def sampleParsed : ParsedVersion :=
  ⟨1, 2, 3, JsNum.val 4, ['1', '.', '2', '.', '3'], ['1', '.', '2', '.', '3', '+', '4']⟩

/-- Witness for C8 (amended) at the minus-free string `"1.2.3+4"`. -/
theorem parseFlutterVersion_nonnegative_witness :
    parseFlutterVersion "1.2.3+4" = some sampleParsed ∧
      0 ≤ sampleParsed.major ∧ 0 ≤ sampleParsed.minor ∧ 0 ≤ sampleParsed.patch :=
  ⟨by decide,
    (parseFlutterVersion_nonnegative "1.2.3+4" sampleParsed (by decide) (by decide)).1,
    (parseFlutterVersion_nonnegative "1.2.3+4" sampleParsed (by decide) (by decide)).2.1,
    (parseFlutterVersion_nonnegative "1.2.3+4" sampleParsed (by decide) (by decide)).2.2.1⟩

/-! ### Claims about the history scan -/

theorem scanLoop_reuse {cur w : String} (hw : w ≠ cur) :
    ∀ (pre rest : List (Option String)) (count : Nat) (found : List String),
      (∀ x ∈ pre, x = none ∨ x = some cur) →
      2 ≤ count + pre.count (some cur) →
      scanLoop cur (pre ++ some w :: rest) count found = ScanExit.early cur := by
  intro pre
  induction pre with
  | nil =>
    intro rest count found hall hcount
    rw [List.count_nil] at hcount
    rw [List.nil_append]
    simp only [scanLoop, if_neg hw]
    rw [if_pos (by omega)]
  | cons x pre ih =>
    intro rest count found hall hcount
    rcases hall x (List.mem_cons_self x pre) with hx | hx
    · subst hx
      rw [List.cons_append]
      simp only [scanLoop]
      apply ih rest count found (fun y hy => hall y (List.mem_cons_of_mem none hy))
      simp [List.count_cons] at hcount
      omega
    · subst hx
      rw [List.cons_append]
      simp only [scanLoop, if_pos rfl]
      apply ih rest (count + 1) (found ++ [cur])
        (fun y hy => hall y (List.mem_cons_of_mem (some cur) hy))
      simp [List.count_cons] at hcount
      omega

/-- Claim C1: whenever the current version has been observed (by exact string
match) in more than one commit before the first commit whose version differs,
the scan classifies the state as reuse: it returns the current version
itself, taking precedence over the differing version `w` found there. -/
theorem findPreviousVersion_reuse_precedence
    (pre rest : List (Option String)) (cur w : String)
    (hpre : ∀ x ∈ pre, x = none ∨ x = some cur)
    (hcount : 2 ≤ pre.count (some cur))
    (hw : w ≠ cur) :
    findPreviousVersion (pre ++ some w :: rest) cur = some cur := by
  rw [findPreviousVersion, scanLoop_reuse hw pre rest 0 [] hpre (by omega)]
  rfl

/-- Witness for C1: the current version appears twice before `0.9.0+1`. -/
theorem findPreviousVersion_reuse_precedence_witness :
    findPreviousVersion [some "1.0.0+1", some "1.0.0+1", some "0.9.0+1"] "1.0.0+1"
      = some "1.0.0+1" :=
  findPreviousVersion_reuse_precedence [some "1.0.0+1", some "1.0.0+1"] []
    "1.0.0+1" "0.9.0+1" (by decide) (by decide) (by decide)

theorem scanLoop_all_same {cur : String} :
    ∀ (obs : List (Option String)) (count : Nat) (found : List String),
      (∀ x ∈ obs, x = none ∨ x = some cur) →
      ∃ f2, scanLoop cur obs count found =
          ScanExit.exhausted (count + obs.count (some cur)) f2 ∧
        (∀ v ∈ f2, v ∈ found ∨ v = cur) := by
  intro obs
  induction obs with
  | nil =>
    intro count found _
    exact ⟨found, by rw [List.count_nil]; rfl, fun v hv => Or.inl hv⟩
  | cons x obs ih =>
    intro count found hall
    rcases hall x (List.mem_cons_self x obs) with hx | hx
    · subst hx
      obtain ⟨f2, hf2, hmem⟩ :=
        ih count found (fun y hy => hall y (List.mem_cons_of_mem none hy))
      refine ⟨f2, ?_, hmem⟩
      have hcnt : (none :: obs).count (some cur) = obs.count (some cur) := by
        simp [List.count_cons]
      show scanLoop cur obs count found =
        ScanExit.exhausted (count + (none :: obs).count (some cur)) f2
      rw [hcnt]
      exact hf2
    · subst hx
      obtain ⟨f2, hf2, hmem⟩ := ih (count + 1) (found ++ [cur])
        (fun y hy => hall y (List.mem_cons_of_mem (some cur) hy))
      refine ⟨f2, ?_, ?_⟩
      · have hcnt : (some cur :: obs).count (some cur) = obs.count (some cur) + 1 := by
          simp [List.count_cons]
        show (if cur = cur then scanLoop cur obs (count + 1) (found ++ [cur])
            else if count > 1 then ScanExit.early cur else ScanExit.early cur)
          = ScanExit.exhausted (count + (some cur :: obs).count (some cur)) f2
        rw [if_pos rfl, hcnt,
          show count + (obs.count (some cur) + 1) = (count + 1) + obs.count (some cur)
            from by omega]
        exact hf2
      · intro v hv
        rcases hmem v hv with h1 | h1
        · rcases List.mem_append.mp h1 with h2 | h2
          · exact Or.inl h2
          · exact Or.inr (List.mem_singleton.mp h2)
        · exact Or.inr h1

/-- Claim C4: a scan that exhausts every commit without seeing a version
different from the current one, with the current version matched at most
once (the empty history included), classifies as first-build: the scan
returns `null`, and the run reports the previous version as `"none"`, the
`version-updated` output as `false`, and keeps the current version. -/
theorem findPreviousVersion_first_build (obs : List (Option String)) (cur : String)
    (hall : ∀ x ∈ obs, x = none ∨ x = some cur)
    (hcount : obs.count (some cur) ≤ 1) :
    findPreviousVersion obs cur = none ∧
      run cur (findPreviousVersion obs cur) =
        RunResult.done ⟨"none", cur, some false, none⟩ := by
  obtain ⟨f2, hf2, hmem⟩ := scanLoop_all_same obs 0 [] hall
  have hscan : findPreviousVersion obs cur = none := by
    rw [findPreviousVersion, hf2, scanFinish, if_neg (by omega)]
    have hfind : f2.find? (fun v => v != cur) = none := by
      rw [List.find?_eq_none]
      intro v hv
      rcases hmem v hv with h1 | h1
      · exact absurd h1 (List.not_mem_nil v)
      · subst h1
        simp
    rw [hfind]
  exact ⟨hscan, by rw [hscan]; rfl⟩

/-- Witness for C4: a history holding only one commit at the current version
and one unreadable commit. -/
theorem findPreviousVersion_first_build_witness :
    findPreviousVersion [some "1.0.0+1", none] "1.0.0+1" = none ∧
      run "1.0.0+1" (findPreviousVersion [some "1.0.0+1", none] "1.0.0+1") =
        RunResult.done ⟨"none", "1.0.0+1", some false, none⟩ :=
  findPreviousVersion_first_build [some "1.0.0+1", none] "1.0.0+1" (by decide) (by decide)

theorem observedVersions_cons_none (obs : List (Option String)) :
    observedVersions (none :: obs) = observedVersions obs := by
  simp [observedVersions]

theorem observedVersions_cons_some (v : String) (obs : List (Option String)) :
    observedVersions (some v :: obs) = v :: observedVersions obs := by
  simp [observedVersions]

theorem scanResult_cases {cur : String} :
    ∀ (obs : List (Option String)) (count : Nat) (found : List String),
      (∀ v ∈ found, v = cur) →
      scanFinish cur (scanLoop cur obs count found) = none ∨
      scanFinish cur (scanLoop cur obs count found) = some cur ∨
      (∃ w, (observedVersions obs).find? (fun v => v != cur) = some w ∧
        scanFinish cur (scanLoop cur obs count found) = some w) := by
  intro obs
  induction obs with
  | nil =>
    intro count found hfound
    have hstep : scanLoop cur [] count found = ScanExit.exhausted count found := rfl
    rw [hstep]
    by_cases hc : count > 1
    · right; left
      simp only [scanFinish]
      rw [if_pos hc]
    · left
      simp only [scanFinish]
      rw [if_neg hc]
      have hfind : found.find? (fun v => v != cur) = none := by
        rw [List.find?_eq_none]
        intro v hv
        simp [hfound v hv]
      rw [hfind]
  | cons x obs ih =>
    intro count found hfound
    rcases x with _ | v
    · have hstep : scanLoop cur (none :: obs) count found = scanLoop cur obs count found := rfl
      rw [hstep, observedVersions_cons_none]
      exact ih count found hfound
    · by_cases hv : v = cur
      · rw [hv]
        have hstep : scanLoop cur (some cur :: obs) count found =
            scanLoop cur obs (count + 1) (found ++ [cur]) := by
          show (if cur = cur then scanLoop cur obs (count + 1) (found ++ [cur])
              else if count > 1 then ScanExit.early cur else ScanExit.early cur) = _
          rw [if_pos rfl]
        have hfound2 : ∀ w ∈ found ++ [cur], w = cur := by
          intro w hw
          rcases List.mem_append.mp hw with h1 | h1
          · exact hfound w h1
          · exact List.mem_singleton.mp h1
        rw [hstep, observedVersions_cons_some]
        have hskip : (cur :: observedVersions obs).find? (fun v => v != cur) =
            (observedVersions obs).find? (fun v => v != cur) := by
          rw [List.find?_cons_of_neg _ (by simp)]
        rw [hskip]
        exact ih (count + 1) (found ++ [cur]) hfound2
      · have hstep : scanLoop cur (some v :: obs) count found =
            (if count > 1 then ScanExit.early cur else ScanExit.early v) := by
          show (if v = cur then scanLoop cur obs (count + 1) (found ++ [v])
              else if count > 1 then ScanExit.early cur else ScanExit.early v) = _
          rw [if_neg hv]
        rw [hstep, observedVersions_cons_some]
        by_cases hc : count > 1
        · right; left
          rw [if_pos hc]
          rfl
        · right; right
          refine ⟨v, ?_, ?_⟩
          · rw [List.find?_cons_of_pos _ (by simp [hv])]
          · rw [if_neg hc]
            rfl

theorem scanLoop_exhausted_all_cur {cur : String} :
    ∀ (obs : List (Option String)) (count : Nat) (found : List String)
      (c2 : Nat) (f2 : List String),
      (∀ v ∈ found, v = cur) →
      scanLoop cur obs count found = ScanExit.exhausted c2 f2 →
      ∀ v ∈ f2, v = cur := by
  intro obs
  induction obs with
  | nil =>
    intro count found c2 f2 hfound hex
    have h1 : found = f2 := by
      injection hex
    rw [← h1]
    exact hfound
  | cons x obs ih =>
    intro count found c2 f2 hfound hex
    rcases x with _ | v
    · exact ih count found c2 f2 hfound hex
    · by_cases hv : v = cur
      · rw [hv] at hex
        have hstep : scanLoop cur (some cur :: obs) count found =
            scanLoop cur obs (count + 1) (found ++ [cur]) := by
          show (if cur = cur then scanLoop cur obs (count + 1) (found ++ [cur])
              else if count > 1 then ScanExit.early cur else ScanExit.early cur) = _
          rw [if_pos rfl]
        rw [hstep] at hex
        have hfound2 : ∀ w ∈ found ++ [cur], w = cur := by
          intro w hw
          rcases List.mem_append.mp hw with h1 | h1
          · exact hfound w h1
          · exact List.mem_singleton.mp h1
        exact ih (count + 1) (found ++ [cur]) c2 f2 hfound2 hex
      · have hstep : scanLoop cur (some v :: obs) count found =
            (if count > 1 then ScanExit.early cur else ScanExit.early v) := by
          show (if v = cur then scanLoop cur obs (count + 1) (found ++ [v])
              else if count > 1 then ScanExit.early cur else ScanExit.early v) = _
          rw [if_neg hv]
        rw [hstep] at hex
        by_cases hc : count > 1
        · rw [if_pos hc] at hex
          exact ScanExit.noConfusion hex
        · rw [if_neg hc] at hex
          exact ScanExit.noConfusion hex

/-- Claim C10: the scan returns exactly one of `null`, the current version
itself, or the version of the chronologically first scanned commit whose
version differs from the current one; and whenever the loop exhausts the
history (reaching the post-loop fallback), the fallback search over the
collected versions finds nothing — it never produces the result. -/
theorem findPreviousVersion_trichotomy (obs : List (Option String)) (cur : String) :
    (findPreviousVersion obs cur = none ∨
     findPreviousVersion obs cur = some cur ∨
     (∃ w, firstDifferentVersion obs cur = some w ∧
       findPreviousVersion obs cur = some w)) ∧
    (∀ count found, scanLoop cur obs 0 [] = ScanExit.exhausted count found →
      found.find? (fun v => v != cur) = none) := by
  constructor
  · exact scanResult_cases obs 0 [] (fun v hv => absurd hv (List.not_mem_nil v))
  · intro count found hex
    have hall := scanLoop_exhausted_all_cur obs 0 [] count found
      (fun v hv => absurd hv (List.not_mem_nil v)) hex
    rw [List.find?_eq_none]
    intro v hv
    simp [hall v hv]

/-- Witness for C10: a one-commit history at the current version exhausts the
loop with that version collected, and the fallback finds nothing. -/
theorem findPreviousVersion_trichotomy_witness :
    List.find? (fun v => v != "1.0.0+1") ["1.0.0+1"] = none :=
  (findPreviousVersion_trichotomy [some "1.0.0+1"] "1.0.0+1").2 1 ["1.0.0+1"] (by decide)

/-! ### Claims about the run decision -/

/-- Claim C3 counterexample: with history `[1.0.0, 1.0.0+0]` and current
version `1.0.0`, the scan's reference version `1.0.0+0` is Version-equal to
the current version (`compareVersions` answers `0`) and the current version
was observed exactly once — yet the run applies no correction: it computes
no next version, reports no update (the `version-updated` output is never
set), instead of treating the state like a regression. -/
theorem run_equal_once_counterexample :
    findPreviousVersion [some "1.0.0", some "1.0.0+0"] "1.0.0" = some "1.0.0+0" ∧
    List.count (some "1.0.0") [some "1.0.0", some "1.0.0+0"] = 1 ∧
    compareVersions "1.0.0" "1.0.0+0" = some 0 ∧
    run "1.0.0" (some "1.0.0+0") = RunResult.done ⟨"1.0.0+0", "1.0.0", none, none⟩ := by
  decide

/-- Claim C3 (amended): when the reference version compares equal to the
current version but differs from it as a string — the only way the
equal-comparison state can arise with the current version observed exactly
once, since the scan returns the current string itself only on reuse — the
run performs no correction: every branch is skipped, the `version-updated`
output is left unset, and no new version is computed.  (A correction on an
equal comparison happens only through the exact string-equality reuse
branch.) -/
theorem run_equal_reference_no_correction (cur p : String)
    (hcmp : compareVersions cur p = some 0) (hne : cur ≠ p) :
    run cur (some p) = RunResult.done ⟨p, cur, none, none⟩ := by
  simp only [run, hcmp]
  rw [if_neg hne, if_neg (by omega), if_neg (by omega)]

/-- Witness for C3 (amended) at current `2.0.0`, reference `2.0.0+0`. -/
theorem run_equal_reference_no_correction_witness :
    compareVersions "2.0.0" "2.0.0+0" = some 0 ∧
      run "2.0.0" (some "2.0.0+0") = RunResult.done ⟨"2.0.0+0", "2.0.0", none, none⟩ :=
  ⟨by decide, run_equal_reference_no_correction "2.0.0" "2.0.0+0" (by decide) (by decide)⟩

/-- Claim C5: on a regression (the previous version strictly greater than
the current one), the run corrects to `generateNextVersion` of the
*reference* (previous) version, not of the current one, and reports
`version-updated = true`; concretely, current `1.0.3+8` with previous
`1.0.5+10` is corrected to `1.0.6+11`. -/
theorem run_regression_uses_reference :
    (∀ (cur p : String) (z : Int), compareVersions cur p = some z → z < 0 →
      run cur (some p) =
        RunResult.done ⟨p, generateNextVersion p, some true, some (generateNextVersion p)⟩) ∧
    run "1.0.3+8" (some "1.0.5+10") =
      RunResult.done ⟨"1.0.5+10", "1.0.6+11", some true, some "1.0.6+11"⟩ := by
  constructor
  · intro cur p z hcmp hz
    have hne : cur ≠ p := by
      intro he
      have hself : compareVersions cur p = none ∨ compareVersions cur p = some 0 := by
        rw [he]
        exact compareVersions_self p
      rcases hself with h1 | h1
      · rw [h1] at hcmp
        exact Option.noConfusion hcmp
      · rw [h1] at hcmp
        have := Option.some.inj hcmp
        omega
    simp only [run, hcmp]
    rw [if_neg hne, if_neg (by omega), if_pos hz]
  · decide

/-- Witness for C5's universal part at the concrete regression pair. -/
theorem run_regression_uses_reference_witness :
    run "1.0.3+8" (some "1.0.5+10") =
      RunResult.done ⟨"1.0.5+10", generateNextVersion "1.0.5+10", some true,
        some (generateNextVersion "1.0.5+10")⟩ :=
  run_regression_uses_reference.1 "1.0.3+8" "1.0.5+10" (-1) (by decide) (by decide)

/-! ### Claim about commit-and-push error handling -/

/-- Claim C9: when configuration, staging, committing, tagging and the
branch push (directly or via the fallback strategy) all succeed, a failure
of the final tag push does not fail `commitAndPush`: the operation still
completes successfully, the failure being only logged. -/
theorem commitAndPush_tag_push_nonfatal (env : GitEnv)
    (hconfig : env.configOk = true) (hstatus : env.statusOutput ≠ "")
    (hadd : env.addOk = true) (hcommit : env.commitOk = true)
    (htag : env.tagCreateOk = true)
    (hpush : env.pushBranchOk = true ∨ env.pushHeadOk = true) :
    commitAndPush env = CommitPushResult.success env.tagPushOk ∧
      commitAndPush { env with tagPushOk := false } = CommitPushResult.success false := by
  rcases hpush with h | h <;>
    simp [commitAndPush, hconfig, hstatus, hadd, hcommit, htag, h]

/-- Witness for C9: a concrete environment where everything succeeds except
the tag push, which still yields a successful result. -/
theorem commitAndPush_tag_push_nonfatal_witness :
    commitAndPush ⟨true, "M pubspec.yaml", true, true, true, true, false, false⟩ =
      CommitPushResult.success false :=
  (commitAndPush_tag_push_nonfatal
    ⟨true, "M pubspec.yaml", true, true, true, true, false, false⟩
    rfl (by decide) rfl rfl rfl (Or.inl rfl)).1
